import Mathlib

set_option autoImplicit false

namespace Spec2Proof

/-!
Shallow embedding of the change-attribution and self-healing core of the
repository (src/test-scripts/change-analyzer.js, self-healing-framework.js,
api-tester.js).  Line numbers are modelled as `Int` (JavaScript numbers used
only through integer arithmetic here), strings as Lean `String`, and the
external collaborators (git, the AST parser, Playwright pages, the HTTP
transport) as explicit function parameters.
-/

/-! ### ChangeAnalyzer.parseGitDiff (change-analyzer.js, lines 70-114)

The scan classifies each raw diff line by the string tests of the source:
a line starting with `@@` whose hunk-header regex matches (capturing the old
and new start numbers) or does not, a line starting with `+` but not `+++`,
a line starting with `+++`, a line starting with `-` but not `---`, a line
starting with `---`, a line starting with a backslash, and any other
(context) line.  `DiffLine` records exactly that classification, which is
the only thing the source reads from each line.
-/

inductive DiffLine where
  | hunkHeader (oldStart newStart : Nat)
  | hunkBad
  | plus
  | plusFile
  | minus
  | minusFile
  | noNewline
  | context
  deriving DecidableEq

structure LineSets where
  added : List Int
  deleted : List Int
  modified : List Int
  deriving DecidableEq

/-- An open hunk during the scan: its `start` and how many content lines were
pushed into it (`hunk.content.push(line)` in the source; only the length of
`content` is read afterwards, for `end = start + content.length`). -/
structure ParseHunk where
  start : Int
  contentLen : Nat
  deriving DecidableEq

structure ParseState where
  lines : LineSets
  hunks : List ParseHunk
  currentLine : Int
  hunkOpen : Bool
  deriving DecidableEq

/-- `hunk.content.push(line)`: the currently open hunk is the last one pushed
into `hunks`, so bump its content length. -/
def bumpLast : List ParseHunk → List ParseHunk
  | [] => []
  | [h] => [⟨h.start, h.contentLen + 1⟩]
  | h :: rest => h :: bumpLast rest

def pushContent (s : ParseState) : List ParseHunk :=
  if s.hunkOpen then bumpLast s.hunks else s.hunks

/-- One iteration of the `for (const line of diffLines)` loop of
`parseGitDiff`.  A matching hunk header resets the cursor to the captured
new-file start (`match[2]`); a `+` line records the cursor into `added` and
advances it; a `-` line records the cursor into `deleted` without advancing;
a `@@` line whose regex fails and a backslash line do nothing; every other
line (including the `+++`/`---` file headers) advances the cursor. -/
def step (s : ParseState) : DiffLine → ParseState
  | .hunkHeader _o n =>
      ⟨s.lines, s.hunks ++ [⟨(n : Int), 0⟩], (n : Int), true⟩
  | .hunkBad => s
  | .plus =>
      ⟨⟨s.lines.added ++ [s.currentLine], s.lines.deleted, s.lines.modified⟩,
        pushContent s, s.currentLine + 1, s.hunkOpen⟩
  | .minus =>
      ⟨⟨s.lines.added, s.lines.deleted ++ [s.currentLine], s.lines.modified⟩,
        pushContent s, s.currentLine, s.hunkOpen⟩
  | .plusFile => ⟨s.lines, s.hunks, s.currentLine + 1, s.hunkOpen⟩
  | .minusFile => ⟨s.lines, s.hunks, s.currentLine + 1, s.hunkOpen⟩
  | .noNewline => s
  | .context => ⟨s.lines, s.hunks, s.currentLine + 1, s.hunkOpen⟩

def initState : ParseState := ⟨⟨[], [], []⟩, [], 0, false⟩

/-- The raw scan of `parseGitDiff`, before the modified-line reconciliation. -/
def parseRaw (diff : List DiffLine) : ParseState := diff.foldl step initState

/-- `Math.abs(added[i] - deleted[j]) <= 1`. -/
def nearOne (a d : Int) : Bool := (a - d).natAbs ≤ 1

/-- Remove the first element of the deleted list within distance 1 of `a`
(`deleted.splice(j, 1)` for the first matching `j`); `none` if no element
matches. -/
def removeFirstNear (a : Int) : List Int → Option (List Int)
  | [] => none
  | d :: ds => if nearOne a d then some ds else (removeFirstNear a ds).map (d :: ·)

/-- The reconciliation loop of `parseGitDiff` (lines 99-109): scan `added`
left to right; each added line that finds a deleted line within distance 1 is
moved into `modified` and the matched deleted line is removed (the `splice`
plus `i--` bookkeeping makes the loop process each original added entry
exactly once, in order).  Returns the final (added, deleted, modified). -/
def reconcile : List Int → List Int → List Int × List Int × List Int
  | [], ds => ([], ds, [])
  | a :: as, ds =>
    match removeFirstNear a ds with
    | some ds' =>
      let r := reconcile as ds'
      (r.1, r.2.1, a :: r.2.2)
    | none =>
      let r := reconcile as ds
      (a :: r.1, r.2.1, r.2.2)

/-- A returned hunk: `end = start + content.length` is filled in after the
scan (`hunks.forEach(h => h.end = ...)`). -/
structure HunkOut where
  start : Int
  stop : Int
  deriving DecidableEq

/-- `ChangeAnalyzer.parseGitDiff`: raw scan, then reconciliation of adjacent
added/deleted pairs into `modified`, then hunk end computation. -/
def parseGitDiff (diff : List DiffLine) : LineSets × List HunkOut :=
  let s := parseRaw diff
  let r := reconcile s.lines.added s.lines.deleted
  (⟨r.1, r.2.1, r.2.2⟩, s.hunks.map fun h => ⟨h.start, h.start + (h.contentLen : Int)⟩)

/-! ### ChangeAnalyzer.detectFunctionChanges (change-analyzer.js, lines 129-180)

The AST traversal (an external collaborator) yields declarations with a name
and a source line range; `Decl` is that projection.  The JavaScript builds an
object keyed by declaration name, so a later declaration with the same name
overwrites the earlier entry while keeping its position; `setKey` mirrors
that object-update semantics on an ordered association list. -/

structure Decl where
  name : String
  startLine : Int
  endLine : Int
  deriving DecidableEq

def inRange (d : Decl) (l : Int) : Bool := decide (d.startLine ≤ l ∧ l ≤ d.endLine)

/-- `[...lineChanges.added, ...lineChanges.modified, ...lineChanges.deleted]`. -/
def allChanged (lc : LineSets) : List Int := lc.added ++ lc.modified ++ lc.deleted

/-- The classification expression assigned to `functions[name]`. -/
def classify (d : Decl) (lc : LineSets) : String :=
  if lc.deleted.any (inRange d) then "deleted"
  else if lc.added.any (inRange d) then "added"
  else "modified"

/-- JavaScript object assignment `m[k] = v`: update in place if the key is
present (keeping its position), otherwise append. -/
def setKey (m : List (String × String)) (k v : String) : List (String × String) :=
  if m.any (fun p => p.1 == k) then
    m.map (fun p => if p.1 == k then (k, v) else p)
  else m ++ [(k, v)]

/-- `ChangeAnalyzer.detectFunctionChanges`: for each declaration, if any
changed line falls inside its range, assign its classification into the
record (the per-line loop breaks on the first line in range, and the value
assigned does not depend on which line that is). -/
def detectFunctionChanges (decls : List Decl) (lc : LineSets) : List (String × String) :=
  decls.foldl
    (fun m d => if (allChanged lc).any (inRange d) then setKey m d.name (classify d lc) else m)
    []

/-- The same record as a `filterMap`; equal to `detectFunctionChanges` when
declaration names are pairwise distinct (proved below). -/
def changeRecordOf (decls : List Decl) (lc : LineSets) : List (String × String) :=
  decls.filterMap fun d =>
    if (allChanged lc).any (inRange d) then some (d.name, classify d lc) else none

/-! ### SelfHealingTest.findElement (self-healing-framework.js, lines 16-97)

The Playwright page is an external collaborator; what the resolver reads
from it is, for each locator query it builds, how many elements currently
match.  `Query` enumerates the locator constructions of the six strategies
and the page is modelled as a total count function `Query → Nat` (locator
construction itself does not fail; `element.count()` yields that count). -/

inductive Query where
  | byTestId (s : String)
  | byId (s : String)
  | byCss (s : String)
  | byXpath (s : String)
  | byText (s : String)
  | byPartialText (s : String)
  | byRole (role name : String)
  | byGetText (s : String)
  | byLabel (s : String)
  | byPlaceholder (s : String)
  deriving DecidableEq

/-- The `selectors` bag of optional hints passed to `findElement`. -/
structure Selectors where
  testId : Option String
  id : Option String
  css : Option String
  xpath : Option String
  text : Option String
  partialText : Option String
  role : Option String
  name : Option String
  description : Option String
  deriving DecidableEq

/-- Tier 6 (`selectors.description`): try getByText, getByLabel,
getByPlaceholder in order and return the first whose count is exactly 1;
otherwise the strategy yields nothing. -/
def firstUnique (count : Query → Nat) : List Query → Option Query
  | [] => none
  | q :: qs => if count q = 1 then some q else firstUnique count qs

/-- The six strategy closures of `findElement`, each yielding the locator it
builds (or nothing when its hints are absent). -/
def strategies (count : Query → Nat) (sel : Selectors) : List (Option Query) :=
  [ match sel.testId with
    | some t => some (.byTestId t)
    | none => sel.id.map .byId,
    sel.css.map .byCss,
    sel.xpath.map .byXpath,
    match sel.text with
    | some t => some (.byText t)
    | none => sel.partialText.map .byPartialText,
    match sel.role, sel.name with
    | some r, some n => some (.byRole r n)
    | _, _ => none,
    sel.description.bind fun d =>
      firstUnique count [.byGetText d, .byLabel d, .byPlaceholder d] ]

/-- `strategy: i + 1` on success, or the literal string `'failed'`. -/
inductive StrategyTag where
  | tier (n : Nat)
  | failed
  deriving DecidableEq

/-- One entry of `this.healingAttempts`. -/
structure HealingAttempt where
  selectors : Selectors
  strategy : StrategyTag
  success : Bool
  timestamp : Nat
  deriving DecidableEq

/-- The `for (let i = 0; ...)` loop of `findElement` over the strategy list:
accept the first strategy that yields a locator with a positive count,
recording `{selectors, strategy: i+1, success: true, timestamp}`; if none
does, record the failure entry and throw the element-not-found error, which
carries the original selector descriptor.  The second component is the list
of ledger entries appended by the call. -/
def healLoop (count : Query → Nat) (sel : Selectors) (ts : Nat) :
    Nat → List (Option Query) → Except Selectors Query × List HealingAttempt
  | _, [] => (.error sel, [⟨sel, .failed, false, ts⟩])
  | i, q? :: rest =>
    match q? with
    | some q =>
      if count q > 0 then (.ok q, [⟨sel, .tier (i + 1), true, ts⟩])
      else healLoop count sel ts (i + 1) rest
    | none => healLoop count sel ts (i + 1) rest

/-- `SelfHealingTest.findElement` (with the default `context = null`). -/
def findElement (count : Query → Nat) (sel : Selectors) (ts : Nat) :
    Except Selectors Query × List HealingAttempt :=
  healLoop count sel ts 0 (strategies count sel)

/-- Specification-side description of the loop's acceptance rule: the first
strategy that yields a locator matching at least one element, regardless of
how many. -/
def firstHit (count : Query → Nat) : List (Option Query) → Option Query
  | [] => none
  | q? :: rest =>
    match q? with
    | some q => if count q > 0 then some q else firstHit count rest
    | none => firstHit count rest

/-! ### SelfHealingAPI (self-healing-framework.js, lines 348-447)

`fetch` is the external HTTP collaborator: for a URL and method it either
rejects (network error) or yields a response with a status code; the body
and headers are not read by any property below.  `response.ok` is the fetch
contract: status in the range 200-299. -/

inductive FetchOutcome where
  | netErr (msg : String)
  | http (status : Nat)
  deriving DecidableEq

def responseOk (s : Nat) : Bool := decide (200 ≤ s ∧ s ≤ 299)

/-- `SelfHealingAPI.executeRequest`: issue the request; a network error
propagates as-is, a non-ok status throws the "failed" error message, and an
ok status is returned. -/
def executeRequest (transport : String → String → FetchOutcome)
    (baseURL endpoint method : String) : Except String Nat :=
  match transport (baseURL ++ endpoint) method with
  | .netErr m => .error m
  | .http s =>
    if responseOk s then .ok s
    else .error (method ++ " " ++ endpoint ++ " failed: " ++ toString s)

/-- `endpoint.replace(/\/$/, '')`: drop a single trailing slash. -/
def stripTrailingSlash (e : String) : String :=
  match e.data.getLast? with
  | some '/' => ⟨e.data.dropLast⟩
  | _ => e

/-- JavaScript `\w`: ASCII letters, digits and underscore. -/
def isWordChar (c : Char) : Bool := c.isAlpha || c.isDigit || c = '_'

/-- `endpoint.replace(/(\w+)\/?$/, '$1s')`: append `s` to the trailing run of
word characters (consuming an optional final slash); if the string does not
end in word characters (after at most one final slash), there is no match
and the string is returned unchanged. -/
def pluralizeLastWord (e : String) : String :=
  let r := e.data.reverse
  let r1 := match r with
    | '/' :: rest => rest
    | _ => r
  let w := r1.takeWhile isWordChar
  if w.isEmpty then e else ⟨(('s' :: w) ++ r1.dropWhile isWordChar).reverse⟩

/-- The five fallback strategy URLs of `SelfHealingAPI.executeWithFallbacks`,
in source order: exact endpoint, `/v1` prefixed, `/v2` prefixed, pluralized,
trailing slash removed. -/
def fallbackUrls (endpoint : String) : List String :=
  [ endpoint,
    "/v1" ++ endpoint,
    "/v2" ++ endpoint,
    pluralizeLastWord endpoint,
    stripTrailingSlash endpoint ]

/-- The strategy loop of `executeWithFallbacks`: return the first strategy
whose request succeeds, as `(healingStrategy index, status)`; remember the
last error and surface it after exhausting the list. -/
def tryFallbacks (exec : String → Except String Nat) :
    Nat → String → List String → Except String (Nat × Nat)
  | _, lastErr, [] => .error lastErr
  | i, _, u :: rest =>
    match exec u with
    | .ok s => .ok (i, s)
    | .error e => tryFallbacks exec (i + 1) e rest

/-- `SelfHealingAPI.executeWithFallbacks` over one test's endpoint/method. -/
def executeWithFallbacks (transport : String → String → FetchOutcome)
    (baseURL endpoint method : String) : Except String (Nat × Nat) :=
  tryFallbacks (fun u => executeRequest transport baseURL u method) 0 ""
    (fallbackUrls endpoint)

/-! ### APITester (api-tester.js)

`funcName.includes(sub)` is contiguous-substring containment. -/

def startsWithChars : List Char → List Char → Bool
  | [], _ => true
  | _ :: _, [] => false
  | n :: ns, h :: hs => n == h && startsWithChars ns hs

def infixChars (needle : List Char) : List Char → Bool
  | [] => needle.isEmpty
  | h :: hs => startsWithChars needle (h :: hs) || infixChars needle hs

def containsSub (hay needle : String) : Bool := infixChars needle.data hay.data

/-- `APITester.pluralizeEndpoint` (api-tester.js lines 464-472) on the
character list of the endpoint: `y` becomes `ies`; otherwise append `s`
unless the string already ends in `s`. -/
def pluralizeChars (e : List Char) : List Char :=
  if e.getLast? = some 'y' then e.dropLast ++ ['i', 'e', 's']
  else if e.getLast? ≠ some 's' then e ++ ['s']
  else e

def pluralizeEndpoint (e : String) : String := ⟨pluralizeChars e.data⟩

/-- The `healingStrategies` array of `APITester.testChangedEndpoint`
(api-tester.js lines 78-85), in source order: each entry is the URL tried
and its `version` label. -/
def healingStrategies (endpoint : String) : List (String × String) :=
  [ (endpoint, ""),
    ("/api" ++ endpoint, "api-prefix"),
    ("/v1" ++ endpoint, "v1"),
    ("/v2" ++ endpoint, "v2"),
    (stripTrailingSlash endpoint, "no-trailing-slash"),
    (pluralizeEndpoint endpoint, "pluralized") ]

/-- The strategy loop of `APITester.testChangedEndpoint` (lines 90-110):
issue `executeEndpointTest` for each strategy URL in order and stop at the
first one that does not throw.  The executor is modelled as an oracle from
the URL to `Option` of its result (`none` = throw).  The first component is
the successful result with the `version` label used (`healingUsed`); the
second is the list of URLs for which a request round was issued. -/
def runHealing {α : Type} (exec : String → Option α) :
    List (String × String) → Option (α × String) × List String
  | [] => (none, [])
  | (u, v) :: rest =>
    match exec u with
    | some r => (some (r, v), [u])
    | none =>
      let p := runHealing exec rest
      (p.1, u :: p.2)

def testChangedEndpoint {α : Type} (exec : String → Option α) (endpoint : String) :
    Option (α × String) × List String :=
  runHealing exec (healingStrategies endpoint)

/-- `file.split('/')` on the character list: splitting on the slash
separator, never returning an empty list (the empty string splits to a
single empty segment, as in JavaScript). -/
def splitOnSlash : List Char → List (List Char)
  | [] => [[]]
  | c :: rest =>
    match splitOnSlash rest with
    | [] => [[]]
    | seg :: segs => if c = '/' then [] :: seg :: segs else (c :: seg) :: segs

def splitSlash (s : String) : List String := (splitOnSlash s.data).map fun l => ⟨l⟩

/-- The effect, at path-segment level, of the greedy regex replace
`file.replace(/^.*\/(api|services)\//, '')`: the match exists exactly when
some segment equal to `api` or `services` has a segment before it (the
required leading slash) and a segment after it (the required trailing
slash), and the greedy `.*` picks the last such segment; everything up to
and including it is removed. -/
def lastApiIdx (segs : List String) : Option Nat :=
  ((List.range segs.length).filter fun i =>
    decide (1 ≤ i) && decide (i + 1 < segs.length) &&
      (segs.getD i "" == "api" || segs.getD i "" == "services")).getLast?

def stripApiDirs (segs : List String) : List String :=
  match lastApiIdx segs with
  | some i => segs.drop (i + 1)
  | none => segs

/-- `basePath.replace(/\.[^/.]+$/, '')` acting on one path segment: drop a
final dot followed by one or more characters that are neither dots nor
slashes; otherwise the segment is unchanged. -/
def stripExtSeg (s : String) : String :=
  let r := s.data.reverse
  let ext := r.takeWhile fun c => !(c = '.' || c = '/')
  if ext.isEmpty then s
  else
    match r.drop ext.length with
    | '.' :: rest => ⟨rest.reverse⟩
    | _ => s

def lastSeg (segs : List String) : String := segs.getLast?.getD ""

/-- `funcName.includes('Id') || funcName.includes('ById')`. -/
def hasIdName (funcName : String) : Bool :=
  containsSub funcName "Id" || containsSub funcName "ById"

/-- `APITester.deriveEndpoint` (api-tester.js lines 443-452): strip the
`.../api/` or `.../services/` prefix, strip the extension, take the last
path segment (`split('/').pop()`), and append `/:id` for `Id`-named
declarations. -/
def deriveEndpoint (file funcName : String) : String :=
  let resource := stripExtSeg (lastSeg (stripApiDirs (splitSlash file)))
  if hasIdName funcName then "/" ++ resource ++ "/:id" else "/" ++ resource

/-- `APITester.deriveHTTPMethod` (api-tester.js lines 454-462). -/
def deriveHTTPMethod (funcName : String) : String :=
  let lower : String := ⟨funcName.data.map Char.toLower⟩
  if containsSub lower "get" || containsSub lower "fetch" || containsSub lower "find" then "GET"
  else if containsSub lower "post" || containsSub lower "create" || containsSub lower "add" then
    "POST"
  else if containsSub lower "put" || containsSub lower "update" then "PUT"
  else if containsSub lower "patch" then "PATCH"
  else if containsSub lower "delete" || containsSub lower "remove" then "DELETE"
  else "GET"

/-! ### ChangeAwareTestGenerator (self-healing-framework.js, lines 134-346)

Only the fields of a generated test that the verified properties read are
modelled (`name`, `file`, `type`, `function`, `changeType`, `targetArea`);
the selector/action/validation payloads and the fixed `threshold` are
carried opaquely by the source and never branch on the lines data. -/

structure ImpactArea where
  startLine : Int
  endLine : Int
  scope : String
  deriving DecidableEq

/-- `ChangeAwareTestGenerator.calculateUIImpactArea` (lines 336-345):
minimum and maximum over the modified and added line numbers; scope is
`component` when the span exceeds 50 lines, else `partial`.  The source
calls this only when more than 10 modified or added lines exist, so the
empty case (JavaScript `Infinity` bounds) is unreachable and modelled with
placeholder bounds. -/
def calculateUIImpactArea (lc : LineSets) : ImpactArea :=
  let both := lc.modified ++ lc.added
  match both.min?, both.max? with
  | some a, some b => ⟨a, b, if b - a > 50 then "component" else "partial"⟩
  | _, _ => ⟨0, 0, "partial"⟩

structure GenTest where
  name : String
  file : String
  type : String
  function : Option String
  changeType : Option String
  targetArea : Option ImpactArea
  deriving DecidableEq

/-- `ChangeAwareTestGenerator.generateUITests` (lines 174-207): one `ui`
test per non-deleted function entry, then one `visual` test when the file
has more than 10 modified lines or more than 10 added lines. -/
def generateUITests (file : String) (functions : List (String × String)) (lc : LineSets) :
    List GenTest :=
  (functions.filterMap fun fc =>
    if fc.2 == "deleted" then none
    else some ⟨"UI Test: " ++ fc.1 ++ " in " ++ file, file, "ui", some fc.1, some fc.2, none⟩)
  ++ (if lc.modified.length > 10 ∨ lc.added.length > 10 then
        [⟨"Visual Test: " ++ file, file, "visual", none, none,
          some (calculateUIImpactArea lc)⟩]
      else [])

/-! ### Concrete fixtures for scenario conjuncts, counterexamples and witnesses -/

/-- `{testId: "x", css: ".y"}`. -/
def selTestIdCss : Selectors :=
  ⟨some "x", none, some ".y", none, none, none, none, none, none⟩

/-- `{testId: "x"}`. -/
def selTestIdOnly : Selectors :=
  ⟨some "x", none, none, none, none, none, none, none, none⟩

/-- A page where nothing matches the test id and exactly one element matches
the css hint `.y`. -/
def pageCssOnly : Query → Nat
  | .byCss s => if s = ".y" then 1 else 0
  | _ => 0

/-- A page where two elements match the test id `x` and exactly one matches
the css hint `.y`. -/
def pageTwoTestId : Query → Nat
  | .byTestId s => if s = "x" then 2 else 0
  | .byCss s => if s = ".y" then 1 else 0
  | _ => 0

def pageEmpty : Query → Nat := fun _ => 0

/-- A transport whose `/widget` endpoint answers HTTP 404 and every other
URL fails with a network error. -/
def transport404 : String → String → FetchOutcome :=
  fun url _ => if url = "/widget" then .http 404 else .netErr "ECONNREFUSED"

/-- A transport that answers HTTP 200 everywhere. -/
def transport200 : String → String → FetchOutcome := fun _ _ => .http 200

/-- An endpoint-test oracle succeeding exactly on `/users`. -/
def execTier1 : String → Option Nat := fun u => if u = "/users" then some 1 else none

/-- Six modified lines and six added lines: twelve changed lines in total,
but neither set alone exceeds ten. -/
def linesSplit66 : LineSets := ⟨[60, 61, 62, 63, 64, 65], [], [1, 2, 3, 4, 5, 6]⟩

/-- Eleven modified lines spanning lines 60-70. -/
def linesMod11 : LineSets := ⟨[], [], [60, 61, 62, 63, 64, 65, 66, 67, 68, 69, 70]⟩

/-! ## Theorems -/

/-- C2 (amended): the line-change parser keeps a cursor initialized from
each hunk header's new-file start; a `+` line records the cursor into
`added` and advances it, a `-` line records the cursor into `deleted`
without advancing it, and any other line — context lines and the
`+++`/`---` file headers — advances the cursor without recording, except
that a backslash line (the `\ No newline` marker) and a `@@` line whose
header does not parse leave the state unchanged; in particular, for the
diff with header `@@ -10,3 +10,4 @@` whose content adds one line at 11 and
deletes none, the result is added = {11}, modified = {}, deleted = {}. -/
theorem parser_cursor_spec :
    (∀ s : ParseState,
      (step s .plus).lines.added = s.lines.added ++ [s.currentLine] ∧
      (step s .plus).lines.deleted = s.lines.deleted ∧
      (step s .plus).currentLine = s.currentLine + 1) ∧
    (∀ s : ParseState,
      (step s .minus).lines.deleted = s.lines.deleted ++ [s.currentLine] ∧
      (step s .minus).lines.added = s.lines.added ∧
      (step s .minus).currentLine = s.currentLine) ∧
    (∀ s : ParseState,
      (step s .context).lines = s.lines ∧
      (step s .context).currentLine = s.currentLine + 1) ∧
    (∀ (s : ParseState) (o n : Nat),
      (step s (.hunkHeader o n)).currentLine = (n : Int) ∧
      (step s (.hunkHeader o n)).lines = s.lines) ∧
    (∀ s : ParseState,
      (step s .plusFile).currentLine = s.currentLine + 1 ∧
      (step s .plusFile).lines = s.lines ∧
      (step s .minusFile).currentLine = s.currentLine + 1 ∧
      (step s .minusFile).lines = s.lines) ∧
    (∀ s : ParseState, step s .noNewline = s ∧ step s .hunkBad = s) ∧
    (parseGitDiff [.hunkHeader 10 10, .context, .plus, .context, .context]).1 =
      ⟨[11], [], []⟩ :=
  ⟨fun _ => ⟨rfl, rfl, rfl⟩, fun _ => ⟨rfl, rfl, rfl⟩, fun _ => ⟨rfl, rfl⟩,
    fun _ _ _ => ⟨rfl, rfl⟩, fun _ => ⟨rfl, rfl, rfl, rfl⟩, fun _ => ⟨rfl, rfl⟩, rfl⟩

/-- C2 counterexample: a backslash line (`\ No newline at end of file`) is
neither a hunk header nor a `+`/`-` line, yet it does not advance the
cursor: after `@@ -5,2 +5,1 @@` and a backslash line, a following `+` line
still records line 5, where the claim's "any other line advances the
cursor" would make it record line 6. -/
theorem parser_backslash_counterexample :
    (step ⟨⟨[], [], []⟩, [], 5, false⟩ .noNewline).currentLine = 5 ∧
    (parseGitDiff [.hunkHeader 5 5, .noNewline, .plus]).1 = ⟨[5], [], []⟩ ∧
    (parseGitDiff [.hunkHeader 5 5, .noNewline, .plus]).1 ≠ ⟨[6], [], []⟩ :=
  ⟨rfl, rfl, by decide⟩

lemma pluralizeChars_getLast (l : List Char) : (pluralizeChars l).getLast? = some 's' := by
  unfold pluralizeChars
  split
  · rw [List.getLast?_append_of_ne_nil _ (by simp)]
    rfl
  · split
    · rw [List.getLast?_append_of_ne_nil _ (by simp)]
      rfl
    · next h h2 => simpa using h2

lemma pluralizeChars_of_last_s (l : List Char) (h : l.getLast? = some 's') :
    pluralizeChars l = l := by
  unfold pluralizeChars
  rw [h]
  simp

/-- C10: the endpoint pluralization function is idempotent; its output
always ends in `s`, and an input already ending in `s` (and hence not in
`y`) is returned unchanged. -/
theorem pluralizeEndpoint_idempotent (e : String) :
    pluralizeEndpoint (pluralizeEndpoint e) = pluralizeEndpoint e ∧
    (pluralizeEndpoint e).data.getLast? = some 's' ∧
    (e.data.getLast? = some 's' → pluralizeEndpoint e = e) := by
  refine ⟨?_, ?_, ?_⟩
  · show (⟨pluralizeChars (pluralizeChars e.data)⟩ : String) = ⟨pluralizeChars e.data⟩
    rw [pluralizeChars_of_last_s _ (pluralizeChars_getLast e.data)]
  · exact pluralizeChars_getLast e.data
  · intro h
    show (⟨pluralizeChars e.data⟩ : String) = e
    rw [pluralizeChars_of_last_s _ h]

/-- Witness for C10's conditional part at the concrete endpoint `/users`. -/
theorem pluralizeEndpoint_idempotent_witness :
    ("/users".data.getLast? = some 's') ∧ pluralizeEndpoint "/users" = "/users" :=
  ⟨by decide, (pluralizeEndpoint_idempotent "/users").2.2 (by decide)⟩

lemma removeFirstNear_none {a : Int} :
    ∀ {ds : List Int}, removeFirstNear a ds = none → ∀ d ∈ ds, nearOne a d = false := by
  intro ds
  induction ds with
  | nil => intro _ d hd; cases hd
  | cons d0 ds ih =>
    intro h d hd
    by_cases hn : nearOne a d0
    · simp [removeFirstNear, hn] at h
    · simp only [removeFirstNear, hn, if_neg, Bool.false_eq_true, ↓reduceIte,
        Option.map_eq_none'] at h
      rcases List.mem_cons.mp hd with rfl | hd
      · simpa using hn
      · exact ih h d hd

lemma removeFirstNear_sublist {a : Int} :
    ∀ {ds ds' : List Int}, removeFirstNear a ds = some ds' → ds'.Sublist ds := by
  intro ds
  induction ds with
  | nil => intro ds' h; cases h
  | cons d0 ds ih =>
    intro ds' h
    by_cases hn : nearOne a d0
    · simp only [removeFirstNear, hn, if_pos, Option.some.injEq] at h
      subst h
      exact List.sublist_cons_self d0 ds
    · simp only [removeFirstNear, hn, Bool.false_eq_true, ↓reduceIte,
        Option.map_eq_some'] at h
      obtain ⟨t, ht, rfl⟩ := h
      exact (ih ht).cons₂ d0

lemma reconcile_deleted_sublist : ∀ (as ds : List Int), (reconcile as ds).2.1.Sublist ds := by
  intro as
  induction as with
  | nil => intro ds; simp [reconcile]
  | cons a as ih =>
    intro ds
    cases h : removeFirstNear a ds with
    | some ds' =>
      simpa [reconcile, h] using (ih ds').trans (removeFirstNear_sublist h)
    | none => simpa [reconcile, h] using ih ds

lemma reconcile_added_sublist : ∀ (as ds : List Int), (reconcile as ds).1.Sublist as := by
  intro as
  induction as with
  | nil => intro ds; simp [reconcile]
  | cons a as ih =>
    intro ds
    cases h : removeFirstNear a ds with
    | some ds' => simpa [reconcile, h] using (ih ds').cons a
    | none => simpa [reconcile, h] using (ih ds).cons₂ a

lemma reconcile_modified_sublist : ∀ (as ds : List Int), (reconcile as ds).2.2.Sublist as := by
  intro as
  induction as with
  | nil => intro ds; simp [reconcile]
  | cons a as ih =>
    intro ds
    cases h : removeFirstNear a ds with
    | some ds' => simpa [reconcile, h] using (ih ds').cons₂ a
    | none => simpa [reconcile, h] using (ih ds).cons a

lemma reconcile_added_not_deleted : ∀ (as ds : List Int) (x : Int),
    x ∈ (reconcile as ds).1 → x ∉ (reconcile as ds).2.1 := by
  intro as
  induction as with
  | nil => intro ds x hx; simp [reconcile] at hx
  | cons a as ih =>
    intro ds x hx hx'
    cases h : removeFirstNear a ds with
    | some ds' =>
      simp only [reconcile, h] at hx hx'
      exact ih ds' x hx hx'
    | none =>
      simp only [reconcile, h, List.mem_cons] at hx hx'
      rcases hx with rfl | hx
      · have hds : x ∈ ds := (reconcile_deleted_sublist as ds).subset hx'
        have hfalse := removeFirstNear_none h x hds
        simp [nearOne] at hfalse
      · exact ih ds x hx hx'

lemma reconcile_added_not_modified : ∀ (as ds : List Int), as.Nodup → ∀ x : Int,
    x ∈ (reconcile as ds).1 → x ∉ (reconcile as ds).2.2 := by
  intro as
  induction as with
  | nil => intro ds _ x hx; simp [reconcile] at hx
  | cons a as ih =>
    intro ds hnd x hx hx'
    have ha : a ∉ as := (List.nodup_cons.mp hnd).1
    have hnd' : as.Nodup := (List.nodup_cons.mp hnd).2
    cases h : removeFirstNear a ds with
    | some ds' =>
      simp only [reconcile, h, List.mem_cons] at hx hx'
      rcases hx' with rfl | hx'
      · exact ha ((reconcile_added_sublist as ds').subset hx)
      · exact ih ds' hnd' x hx hx'
    | none =>
      simp only [reconcile, h, List.mem_cons] at hx hx'
      rcases hx with rfl | hx
      · exact ha ((reconcile_modified_sublist as ds).subset hx')
      · exact ih ds hnd' x hx hx'

/-- C1 (amended): after reconciliation no line number appears in both
`added` and `deleted`, and — provided the added lines recorded by the raw
scan are pairwise distinct, as they are for well-formed diffs whose hunks
advance — no line number appears in both `added` and `modified`.  The
original claim fails for `deleted`/`modified`: see the counterexample. -/
theorem parseGitDiff_added_disjoint (diff : List DiffLine)
    (h : (parseRaw diff).lines.added.Nodup) (x : Int) :
    (x ∈ (parseGitDiff diff).1.added → x ∉ (parseGitDiff diff).1.deleted) ∧
    (x ∈ (parseGitDiff diff).1.added → x ∉ (parseGitDiff diff).1.modified) :=
  ⟨fun hx => reconcile_added_not_deleted _ _ x hx,
   fun hx => reconcile_added_not_modified _ _ h x hx⟩

/-- C1 counterexample: parsing the unified diff that replaces two lines by
one at line 5 (hunk header `@@ -5,2 +5,1 @@`, two `-` lines, one `+` line)
leaves line 5 in both `deleted` and `modified` after reconciliation, so a
line number can appear in two of the three sets. -/
theorem parseGitDiff_overlap_counterexample :
    (parseGitDiff [.hunkHeader 5 5, .minus, .minus, .plus]).1 = ⟨[], [5], [5]⟩ ∧
    (5 : Int) ∈ (parseGitDiff [.hunkHeader 5 5, .minus, .minus, .plus]).1.deleted ∧
    (5 : Int) ∈ (parseGitDiff [.hunkHeader 5 5, .minus, .minus, .plus]).1.modified :=
  ⟨rfl, by decide, by decide⟩

/-- Witness for C1's amended theorem on a concrete one-hunk diff. -/
theorem parseGitDiff_added_disjoint_witness :
    (parseRaw [.hunkHeader 1 1, .plus]).lines.added.Nodup ∧
    (((1 : Int) ∈ (parseGitDiff [.hunkHeader 1 1, .plus]).1.added →
        (1 : Int) ∉ (parseGitDiff [.hunkHeader 1 1, .plus]).1.deleted) ∧
      ((1 : Int) ∈ (parseGitDiff [.hunkHeader 1 1, .plus]).1.added →
        (1 : Int) ∉ (parseGitDiff [.hunkHeader 1 1, .plus]).1.modified)) :=
  ⟨by decide, parseGitDiff_added_disjoint _ (by decide) 1⟩

lemma setKey_of_not_mem (m : List (String × String)) (k v : String)
    (h : ∀ p ∈ m, p.1 ≠ k) : setKey m k v = m ++ [(k, v)] := by
  have hany : m.any (fun p => p.1 == k) = false := by
    rw [List.any_eq_false]
    intro p hp
    simpa using h p hp
  unfold setKey
  rw [hany]
  simp

lemma changeRecordOf_cons_pos (d : Decl) (rest : List Decl) (lc : LineSets)
    (hc : (allChanged lc).any (inRange d) = true) :
    changeRecordOf (d :: rest) lc = (d.name, classify d lc) :: changeRecordOf rest lc := by
  simp only [changeRecordOf, List.filterMap_cons, hc, ↓reduceIte]

lemma changeRecordOf_cons_neg (d : Decl) (rest : List Decl) (lc : LineSets)
    (hc : (allChanged lc).any (inRange d) = false) :
    changeRecordOf (d :: rest) lc = changeRecordOf rest lc := by
  simp only [changeRecordOf, List.filterMap_cons, hc, Bool.false_eq_true, ↓reduceIte]

lemma detect_go (lc : LineSets) : ∀ (decls : List Decl) (acc : List (String × String)),
    (decls.map Decl.name).Nodup →
    (∀ p ∈ acc, ∀ d ∈ decls, p.1 ≠ d.name) →
    decls.foldl
      (fun m d =>
        if (allChanged lc).any (inRange d) then setKey m d.name (classify d lc) else m)
      acc = acc ++ changeRecordOf decls lc := by
  intro decls
  induction decls with
  | nil =>
    intro acc _ _
    simp [changeRecordOf]
  | cons d rest ih =>
    intro acc hnd hacc
    have hdn : d.name ∉ rest.map Decl.name := (List.nodup_cons.mp hnd).1
    have hnd' : (rest.map Decl.name).Nodup := (List.nodup_cons.mp hnd).2
    rw [List.foldl_cons]
    cases hc : (allChanged lc).any (inRange d) with
    | false =>
      rw [if_neg (by simp [hc])]
      rw [ih acc hnd' (fun p hp d' hd' => hacc p hp d' (List.mem_cons_of_mem d hd')),
        changeRecordOf_cons_neg d rest lc hc]
    | true =>
      rw [if_pos (by simp [hc])]
      rw [setKey_of_not_mem _ _ _ (fun p hp => hacc p hp d (List.mem_cons_self d rest))]
      rw [ih (acc ++ [(d.name, classify d lc)]) hnd' ?_]
      · rw [List.append_assoc, changeRecordOf_cons_pos d rest lc hc]
        rfl
      · intro p hp d' hd'
        rcases List.mem_append.mp hp with hp | hp
        · exact hacc p hp d' (List.mem_cons_of_mem d hd')
        · have hpd : p = (d.name, classify d lc) := by simpa using hp
          subst hpd
          intro hne
          have heq2 : d.name = d'.name := hne
          have hmem : d'.name ∈ rest.map Decl.name := List.mem_map_of_mem Decl.name hd'
          rw [← heq2] at hmem
          exact hdn hmem

lemma detectFunctionChanges_eq_changeRecordOf (decls : List Decl) (lc : LineSets)
    (h : (decls.map Decl.name).Nodup) :
    detectFunctionChanges decls lc = changeRecordOf decls lc := by
  have := detect_go lc decls [] h (by simp)
  simpa [detectFunctionChanges] using this

/-- C3 (amended): provided declaration names are pairwise distinct, a
declaration appears in the output record exactly when its line range
contains a changed line, its classification follows the
deleted-before-added-before-modified tie-break, every emitted entry comes
from a real declaration with a changed line in range, and the `getUser`
scenario yields `{getUser: "modified"}`.  When two declarations share a
name, the last changed one overwrites the record of the first: see the
counterexample. -/
theorem detectFunctionChanges_spec (decls : List Decl) (lc : LineSets)
    (h : (decls.map Decl.name).Nodup) :
    (∀ d ∈ decls,
      ((allChanged lc).any (inRange d) = true ↔
        (d.name, classify d lc) ∈ detectFunctionChanges decls lc)) ∧
    (∀ p ∈ detectFunctionChanges decls lc, ∃ d ∈ decls,
      p.1 = d.name ∧ p.2 = classify d lc ∧ (allChanged lc).any (inRange d) = true) ∧
    (∀ d : Decl, classify d lc =
      if lc.deleted.any (inRange d) then "deleted"
      else if lc.added.any (inRange d) then "added" else "modified") ∧
    detectFunctionChanges [⟨"getUser", 5, 9⟩] ⟨[], [], [7]⟩ = [("getUser", "modified")] := by
  have heq := detectFunctionChanges_eq_changeRecordOf decls lc h
  refine ⟨?_, ?_, fun d => rfl, by decide⟩
  · intro d hd
    constructor
    · intro hc
      rw [heq]
      exact List.mem_filterMap.mpr ⟨d, hd, by simp [hc]⟩
    · intro hmem
      rw [heq] at hmem
      obtain ⟨d', hd', hfd⟩ := List.mem_filterMap.mp hmem
      cases hc : (allChanged lc).any (inRange d') with
      | false => simp [hc] at hfd
      | true =>
        simp only [hc, if_pos, Option.some.injEq, Prod.mk.injEq] at hfd
        have hdd : d' = d := List.inj_on_of_nodup_map h hd' hd hfd.1
        subst hdd
        exact hc
  · intro p hp
    rw [heq] at hp
    obtain ⟨d, hd, hfd⟩ := List.mem_filterMap.mp hp
    cases hc : (allChanged lc).any (inRange d) with
    | false => simp [hc] at hfd
    | true =>
      simp only [hc, if_pos, Option.some.injEq] at hfd
      exact ⟨d, hd, by simp [← hfd], by simp [← hfd], hc⟩

/-- C3 counterexample: two declarations both named `f`, one spanning lines
1-2 with an added line in range, one spanning lines 10-11 with a deleted
line in range.  The first declaration has a changed line in range and its
tie-break classification is `added`, yet the output record is
`{f: "deleted"}` — the object entry was overwritten by the later
declaration of the same name, so the claim's "includes the declaration with
its classification" fails as universally stated. -/
theorem detectFunctionChanges_shadow_counterexample :
    detectFunctionChanges [⟨"f", 1, 2⟩, ⟨"f", 10, 11⟩] ⟨[1], [10], []⟩ = [("f", "deleted")] ∧
    (allChanged ⟨[1], [10], []⟩).any (inRange ⟨"f", 1, 2⟩) = true ∧
    ([10] : List Int).any (inRange ⟨"f", 1, 2⟩) = false ∧
    classify ⟨"f", 1, 2⟩ ⟨[1], [10], []⟩ = "added" ∧
    ("f", "added") ∉ detectFunctionChanges [⟨"f", 1, 2⟩, ⟨"f", 10, 11⟩] ⟨[1], [10], []⟩ :=
  ⟨rfl, by decide, by decide, rfl, by decide⟩

/-- Witness for C3's amended theorem at the `getUser` scenario. -/
theorem detectFunctionChanges_spec_witness :
    (([⟨"getUser", 5, 9⟩] : List Decl).map Decl.name).Nodup ∧
    ((allChanged ⟨[], [], [7]⟩).any (inRange ⟨"getUser", 5, 9⟩) = true ↔
      ("getUser", classify ⟨"getUser", 5, 9⟩ ⟨[], [], [7]⟩) ∈
        detectFunctionChanges [⟨"getUser", 5, 9⟩] ⟨[], [], [7]⟩) :=
  ⟨by decide,
    (detectFunctionChanges_spec [⟨"getUser", 5, 9⟩] ⟨[], [], [7]⟩ (by decide)).1
      ⟨"getUser", 5, 9⟩ (by decide)⟩

lemma healLoop_len (count : Query → Nat) (sel : Selectors) (ts : Nat) :
    ∀ (l : List (Option Query)) (i : Nat), (healLoop count sel ts i l).2.length = 1 := by
  intro l
  induction l with
  | nil => intro i; rfl
  | cons q? rest ih =>
    intro i
    cases q? with
    | none => exact ih (i + 1)
    | some q =>
      by_cases hq : count q > 0
      · simp [healLoop, hq]
      · simpa [healLoop, hq] using ih (i + 1)

lemma healLoop_ok (count : Query → Nat) (sel : Selectors) (ts : Nat) :
    ∀ (l : List (Option Query)) (i : Nat) (q : Query),
      (healLoop count sel ts i l).1 = .ok q →
      ∃ j, j < l.length ∧ l.getD j none = some q ∧ count q > 0 ∧
        (healLoop count sel ts i l).2 = [⟨sel, .tier (i + j + 1), true, ts⟩] := by
  intro l
  induction l with
  | nil => intro i q h; exact absurd h (by simp [healLoop])
  | cons q? rest ih =>
    intro i q h
    cases q? with
    | none =>
      obtain ⟨j, hj, hget, hpos, hrec⟩ := ih (i + 1) q h
      refine ⟨j + 1, by simpa using Nat.succ_lt_succ hj, hget, hpos, ?_⟩
      have harith : i + 1 + j + 1 = i + (j + 1) + 1 := by omega
      rw [← harith]
      exact hrec
    | some q0 =>
      by_cases hq : count q0 > 0
      · have h1 : (healLoop count sel ts i (some q0 :: rest)).1 = .ok q0 := by
          simp [healLoop, hq]
        have hqq : q0 = q := by
          have := h1.symm.trans h
          simpa using this
        subst hqq
        exact ⟨0, by simp, rfl, hq, by simp [healLoop, hq]⟩
      · have hred : healLoop count sel ts i (some q0 :: rest) =
            healLoop count sel ts (i + 1) rest := by
          simp [healLoop, hq]
        rw [hred] at h
        obtain ⟨j, hj, hget, hpos, hrec⟩ := ih (i + 1) q h
        refine ⟨j + 1, by simpa using Nat.succ_lt_succ hj, hget, hpos, ?_⟩
        have harith : i + 1 + j + 1 = i + (j + 1) + 1 := by omega
        rw [hred, ← harith]
        exact hrec

lemma healLoop_fail (count : Query → Nat) (sel : Selectors) (ts : Nat) :
    ∀ (l : List (Option Query)) (i : Nat),
      (∃ q, (healLoop count sel ts i l).1 = .ok q) ∨
        ((healLoop count sel ts i l).1 = .error sel ∧
          (healLoop count sel ts i l).2 = [⟨sel, .failed, false, ts⟩]) := by
  intro l
  induction l with
  | nil => intro i; exact Or.inr ⟨rfl, rfl⟩
  | cons q? rest ih =>
    intro i
    cases q? with
    | none => exact ih (i + 1)
    | some q =>
      by_cases hq : count q > 0
      · exact Or.inl ⟨q, by simp [healLoop, hq]⟩
      · simpa [healLoop, hq] using ih (i + 1)

lemma healLoop_firstHit (count : Query → Nat) (sel : Selectors) (ts : Nat) :
    ∀ (l : List (Option Query)) (i : Nat),
      (healLoop count sel ts i l).1 =
        (match firstHit count l with
         | some q => Except.ok q
         | none => Except.error sel) := by
  intro l
  induction l with
  | nil => intro i; rfl
  | cons q? rest ih =>
    intro i
    cases q? with
    | none => exact ih (i + 1)
    | some q =>
      by_cases hq : count q > 0
      · simp [healLoop, firstHit, hq]
      · simpa [healLoop, firstHit, hq] using ih (i + 1)

lemma firstHit_pos (count : Query → Nat) :
    ∀ (l : List (Option Query)) (q : Query), firstHit count l = some q → count q > 0 := by
  intro l
  induction l with
  | nil => intro q h; cases h
  | cons q? rest ih =>
    intro q h
    cases q? with
    | none => exact ih q h
    | some q0 =>
      by_cases hq : count q0 > 0
      · have : q0 = q := by simpa [firstHit, hq] using h
        subst this
        exact hq
      · exact ih q (by simpa [firstHit, hq] using h)

lemma firstUnique_eq_one (count : Query → Nat) :
    ∀ (qs : List Query) (q : Query), firstUnique count qs = some q → count q = 1 := by
  intro qs
  induction qs with
  | nil => intro q h; cases h
  | cons q0 rest ih =>
    intro q h
    by_cases hq : count q0 = 1
    · have : q0 = q := by simpa [firstUnique, hq] using h
      subst this
      exact hq
    · exact ih q (by simpa [firstUnique, hq] using h)

/-- C4 counterexample: on a page where the test id `x` matches two elements
and the css hint `.y` matches exactly one, `findElement` returns the tier-1
locator (with two candidates) instead of treating the ambiguous tier as
failed and resolving at tier 2 as the claim requires. -/
theorem findElement_ambiguous_counterexample :
    pageTwoTestId (.byTestId "x") = 2 ∧
    pageTwoTestId (.byCss ".y") = 1 ∧
    (findElement pageTwoTestId selTestIdCss 7).1 = .ok (.byTestId "x") ∧
    (findElement pageTwoTestId selTestIdCss 7).2 = [⟨selTestIdCss, .tier 1, true, 7⟩] :=
  ⟨rfl, rfl, rfl, by decide⟩

/-- C4 (amended): `findElement` accepts the first tier whose locator matches
at least one element — a tier with several candidates is accepted, not
skipped; only the tier-6 description fallback demands exactly one match.  A
tier is skipped only when it builds no locator or matches zero elements. -/
theorem findElement_first_positive (count : Query → Nat) (sel : Selectors) (ts : Nat) :
    ((findElement count sel ts).1 =
      (match firstHit count (strategies count sel) with
       | some q => Except.ok q
       | none => Except.error sel)) ∧
    (∀ q, (findElement count sel ts).1 = .ok q → count q > 0) ∧
    (∀ q, (strategies count sel).getLast? = some (some q) → count q = 1) := by
  refine ⟨healLoop_firstHit count sel ts (strategies count sel) 0, ?_, ?_⟩
  · intro q h
    have h2 : (healLoop count sel ts 0 (strategies count sel)).1 = .ok q := h
    rw [healLoop_firstHit count sel ts (strategies count sel) 0] at h2
    cases hfh : firstHit count (strategies count sel) with
    | none => rw [hfh] at h2; cases h2
    | some q0 =>
      rw [hfh] at h2
      have : q0 = q := by simpa using h2
      subst this
      exact firstHit_pos count _ q0 hfh
  · intro q h
    have h6 : (strategies count sel).getLast? =
        some (sel.description.bind fun d =>
          firstUnique count [.byGetText d, .byLabel d, .byPlaceholder d]) := rfl
    rw [h6] at h
    have hbind : (sel.description.bind fun d =>
        firstUnique count [.byGetText d, .byLabel d, .byPlaceholder d]) = some q := by
      simpa using h
    cases hd : sel.description with
    | none => rw [hd] at hbind; cases hbind
    | some d =>
      rw [hd] at hbind
      exact firstUnique_eq_one count _ q (by simpa using hbind)

/-- Witness for C4's amended theorem: the ambiguous tier-1 resolution of the
counterexample page indeed has a positive candidate count. -/
theorem findElement_first_positive_witness :
    pageTwoTestId (.byTestId "x") > 0 :=
  (findElement_first_positive pageTwoTestId selTestIdCss 7).2.1 (.byTestId "x") rfl

/-- C5: every `findElement` call appends exactly one ledger record — on
success `{selectors, strategy: n, success: true, timestamp}` where `n` is
the succeeding tier number and the locator of tier `n` matched, and when all
tiers fail `{selectors, strategy: failed, success: false, timestamp}`
together with an element-not-found error carrying the original descriptor;
in the scenario where the test id `x` matches nothing and the css hint `.y`
matches exactly one element, resolution succeeds at tier 2 with record
`{strategy: 2, success: true}`. -/
theorem findElement_ledger (count : Query → Nat) (sel : Selectors) (ts : Nat) :
    (findElement count sel ts).2.length = 1 ∧
    (∀ q, (findElement count sel ts).1 = .ok q →
      ∃ n, 1 ≤ n ∧ n ≤ 6 ∧
        (findElement count sel ts).2 = [⟨sel, .tier n, true, ts⟩] ∧
        (strategies count sel).getD (n - 1) none = some q ∧ count q > 0) ∧
    ((∀ q : Query, (findElement count sel ts).1 ≠ .ok q) →
      (findElement count sel ts).1 = .error sel ∧
      (findElement count sel ts).2 = [⟨sel, .failed, false, ts⟩]) ∧
    ((findElement pageCssOnly selTestIdCss 7).1 = .ok (.byCss ".y") ∧
      (findElement pageCssOnly selTestIdCss 7).2 = [⟨selTestIdCss, .tier 2, true, 7⟩]) := by
  refine ⟨healLoop_len count sel ts (strategies count sel) 0, ?_, ?_, rfl, by decide⟩
  · intro q h
    obtain ⟨j, hj, hget, hpos, hrec⟩ := healLoop_ok count sel ts (strategies count sel) 0 q h
    refine ⟨j + 1, by omega, ?_, ?_, by simpa using hget, hpos⟩
    · have hlen : (strategies count sel).length = 6 := rfl
      omega
    · simpa using hrec
  · intro hno
    rcases healLoop_fail count sel ts (strategies count sel) 0 with ⟨q, hq⟩ | hfail
    · exact absurd hq (hno q)
    · exact hfail

/-- Witness for C5's success case at the tier-2 scenario. -/
theorem findElement_ledger_witness :
    ∃ n, 1 ≤ n ∧ n ≤ 6 ∧
      (findElement pageCssOnly selTestIdCss 7).2 = [⟨selTestIdCss, .tier n, true, 7⟩] ∧
      (strategies pageCssOnly selTestIdCss).getD (n - 1) none = some (.byCss ".y") ∧
      pageCssOnly (.byCss ".y") > 0 :=
  (findElement_ledger pageCssOnly selTestIdCss 7).2.1 (.byCss ".y") rfl

lemma tryFallbacks_ok_mem (exec : String → Except String Nat) :
    ∀ (urls : List String) (i : Nat) (le : String) (j s : Nat),
      tryFallbacks exec i le urls = .ok (j, s) → ∃ u ∈ urls, exec u = .ok s := by
  intro urls
  induction urls with
  | nil => intro i le j s h; cases h
  | cons u rest ih =>
    intro i le j s h
    cases hu : exec u with
    | ok s0 =>
      simp only [tryFallbacks, hu, Except.ok.injEq, Prod.mk.injEq] at h
      exact ⟨u, List.mem_cons_self u rest, by rw [hu, h.2]⟩
    | error e =>
      simp only [tryFallbacks, hu] at h
      obtain ⟨u', hu', he⟩ := ih (i + 1) e j s h
      exact ⟨u', List.mem_cons_of_mem u hu', he⟩

lemma tryFallbacks_all_err (exec : String → Except String Nat) :
    ∀ (urls : List String) (i : Nat) (le : String) (lastU : String),
      urls.getLast? = some lastU →
      (∀ u ∈ urls, ∀ s, exec u ≠ .ok s) →
      ∃ er, tryFallbacks exec i le urls = .error er ∧ exec lastU = .error er := by
  intro urls
  induction urls with
  | nil => intro i le lastU h; cases h
  | cons u rest ih =>
    intro i le lastU hlast hall
    cases hu : exec u with
    | ok s0 => exact absurd hu (hall u (List.mem_cons_self u rest) s0)
    | error e =>
      cases rest with
      | nil =>
        have huu : lastU = u := by simpa using hlast.symm
        subst huu
        exact ⟨e, by simp [tryFallbacks, hu], hu⟩
      | cons u2 rest2 =>
        rw [List.getLast?_cons_cons] at hlast
        obtain ⟨er, htf, hex⟩ := ih (i + 1) e lastU hlast
          (fun v hv s hs => hall v (List.mem_cons_of_mem u hv) s hs)
        exact ⟨er, by simpa [tryFallbacks, hu] using htf, hex⟩

/-- C6 (amended): a tier of `executeWithFallbacks` is accepted exactly when
its request yields an HTTP response whose status is ok (2xx); a
non-network-error response with any other status code is turned into the
tier's "failed" error and the next tier is tried, and when every tier fails
the error of the last tier attempted is surfaced. -/
theorem executeWithFallbacks_ok_spec (t : String → String → FetchOutcome)
    (b e m : String) :
    (∀ s, executeRequest t b e m = .ok s → executeWithFallbacks t b e m = .ok (0, s)) ∧
    (∀ u s, executeRequest t b u m = .ok s →
      t (b ++ u) m = .http s ∧ responseOk s = true) ∧
    (∀ u s, t (b ++ u) m = .http s → responseOk s = false →
      executeRequest t b u m = .error (m ++ " " ++ u ++ " failed: " ++ toString s)) ∧
    (∀ i s, executeWithFallbacks t b e m = .ok (i, s) →
      ∃ u ∈ fallbackUrls e, executeRequest t b u m = .ok s) ∧
    ((∀ u ∈ fallbackUrls e, ∀ s, executeRequest t b u m ≠ .ok s) →
      ∃ er, executeWithFallbacks t b e m = .error er ∧
        executeRequest t b (stripTrailingSlash e) m = .error er) := by
  refine ⟨?_, ?_, ?_, ?_, ?_⟩
  · intro s h
    simp only [executeWithFallbacks, fallbackUrls, tryFallbacks, h]
  · intro u s h
    unfold executeRequest at h
    cases ht : t (b ++ u) m with
    | netErr msg => rw [ht] at h; cases h
    | http s0 =>
      rw [ht] at h
      cases hok : responseOk s0 with
      | false => simp [hok] at h
      | true =>
        simp only [hok, ↓reduceIte, Except.ok.injEq] at h
        subst h
        exact ⟨rfl, hok⟩
  · intro u s hresp hok
    unfold executeRequest
    rw [hresp]
    simp [hok]
  · intro i s h
    exact tryFallbacks_ok_mem _ (fallbackUrls e) 0 "" i s h
  · intro hall
    have hlast : (fallbackUrls e).getLast? = some (stripTrailingSlash e) := rfl
    exact tryFallbacks_all_err _ (fallbackUrls e) 0 "" (stripTrailingSlash e) hlast hall

/-- C6 counterexample: a transport whose endpoint `/widget` answers HTTP 404
— a non-network-error response — while every other URL fails with a network
error.  The claim says the first tier is then accepted as resolved
regardless of status; instead the resolver converts the 404 into a tier
failure, exhausts all tiers, and surfaces an error. -/
theorem executeWithFallbacks_status_counterexample :
    transport404 ("" ++ "/widget") "GET" = .http 404 ∧
    executeRequest transport404 "" "/widget" "GET" = .error "GET /widget failed: 404" ∧
    executeWithFallbacks transport404 "" "/widget" "GET" =
      .error "GET /widget failed: 404" :=
  ⟨rfl, rfl, rfl⟩

/-- Witness for C6's amended theorem: a transport answering 200 everywhere
is accepted at tier 1 (healing strategy index 0). -/
theorem executeWithFallbacks_ok_spec_witness :
    executeRequest transport200 "" "/users" "GET" = .ok 200 ∧
    executeWithFallbacks transport200 "" "/users" "GET" = .ok (0, 200) :=
  ⟨rfl, (executeWithFallbacks_ok_spec transport200 "" "/users" "GET").1 200 rfl⟩

lemma runHealing_take {α : Type} (exec : String → Option α) :
    ∀ l : List (String × String), ∃ k, (runHealing exec l).2 = (l.map Prod.fst).take k := by
  intro l
  induction l with
  | nil => exact ⟨0, rfl⟩
  | cons uv rest ih =>
    obtain ⟨u, v⟩ := uv
    cases hu : exec u with
    | some r => exact ⟨1, by simp [runHealing, hu]⟩
    | none =>
      obtain ⟨k, hk⟩ := ih
      exact ⟨k + 1, by simp [runHealing, hu, hk]⟩

lemma runHealing_dropLast_none {α : Type} (exec : String → Option α) :
    ∀ l : List (String × String), ∀ u ∈ (runHealing exec l).2.dropLast, exec u = none := by
  intro l
  induction l with
  | nil => intro u hu; cases hu
  | cons uv rest ih =>
    obtain ⟨u0, v0⟩ := uv
    intro u hu
    cases he : exec u0 with
    | some r => simp [runHealing, he] at hu
    | none =>
      have hshape : (runHealing exec ((u0, v0) :: rest)).2 =
          u0 :: (runHealing exec rest).2 := by simp [runHealing, he]
      rw [hshape] at hu
      cases htail : (runHealing exec rest).2 with
      | nil => rw [htail] at hu; cases hu
      | cons w ws =>
        rw [htail, List.dropLast_cons₂] at hu
        rcases List.mem_cons.mp hu with rfl | hu
        · exact he
        · exact ih u (by rw [htail]; exact hu)

/-- C7: `testChangedEndpoint` tries its healing strategies strictly in the
order (1) exact path, (2) `/api` prefix, (3) `/v1` prefix, (4) `/v2`
prefix, (5) trailing slash stripped, (6) pluralized, stopping at the first
strategy whose request round succeeds: the attempted URLs are always an
order-preserving prefix of that list, every attempted URL except possibly
the last failed, and when tier 1 succeeds it is the only URL attempted —
tiers 2 through 6 issue zero requests. -/
theorem testChangedEndpoint_tier_order {α : Type} (exec : String → Option α) (e : String) :
    (healingStrategies e).map Prod.fst =
      [e, "/api" ++ e, "/v1" ++ e, "/v2" ++ e, stripTrailingSlash e,
        pluralizeEndpoint e] ∧
    (healingStrategies e).map Prod.snd =
      ["", "api-prefix", "v1", "v2", "no-trailing-slash", "pluralized"] ∧
    (∃ k, (testChangedEndpoint exec e).2 = ((healingStrategies e).map Prod.fst).take k) ∧
    (∀ u ∈ (testChangedEndpoint exec e).2.dropLast, exec u = none) ∧
    (∀ r, exec e = some r → (testChangedEndpoint exec e).2 = [e]) := by
  refine ⟨rfl, rfl, runHealing_take exec (healingStrategies e),
    runHealing_dropLast_none exec (healingStrategies e), ?_⟩
  intro r hr
  simp [testChangedEndpoint, healingStrategies, runHealing, hr]

/-- Witness for C7's tier-1 short-circuit at the endpoint `/users`. -/
theorem testChangedEndpoint_tier_order_witness :
    execTier1 "/users" = some 1 ∧ (testChangedEndpoint execTier1 "/users").2 = ["/users"] :=
  ⟨rfl, (testChangedEndpoint_tier_order execTier1 "/users").2.2.2.2 1 rfl⟩

lemma lastApiIdx_lt {segs : List String} {i : Nat} (h : lastApiIdx segs = some i) :
    i + 1 < segs.length := by
  have hmem : i ∈ (List.range segs.length).filter fun j =>
      decide (1 ≤ j) && decide (j + 1 < segs.length) &&
        (segs.getD j "" == "api" || segs.getD j "" == "services") :=
    List.mem_of_mem_getLast? h
  have hp := (List.mem_filter.mp hmem).2
  simp only [Bool.and_eq_true, decide_eq_true_eq] at hp
  exact hp.1.2

lemma getLast?_drop : ∀ (l : List String) (k : Nat), k < l.length →
    (l.drop k).getLast? = l.getLast? := by
  intro l
  induction l with
  | nil => intro k h; simp at h
  | cons x xs ih =>
    intro k h
    cases k with
    | zero => rfl
    | succ k' =>
      have hk : k' < xs.length := by simpa using h
      rw [List.drop_succ_cons, ih k' hk]
      cases xs with
      | nil => simp at hk
      | cons y ys => rw [List.getLast?_cons_cons]

lemma lastSeg_stripApiDirs (segs : List String) :
    lastSeg (stripApiDirs segs) = lastSeg segs := by
  unfold stripApiDirs
  cases h : lastApiIdx segs with
  | none => rfl
  | some i =>
    unfold lastSeg
    rw [getLast?_drop segs (i + 1) (lastApiIdx_lt h)]

/-- C8: the derived endpoint is `/` plus the last path segment of the file
with its extension stripped (stripping the `api/`|`services/` prefix never
changes the last segment), with `/:id` appended exactly when the declaration
name contains `Id` or `ById`; the derived method follows the priority order
get/fetch/find to GET, post/create/add to POST, put/update to PUT, patch to
PATCH, delete/remove to DELETE, defaulting to GET; and file `api/users.js`
with declaration `getUserById` yields endpoint `/users/:id` and method
`GET`. -/
theorem deriveEndpoint_spec (file funcName : String) :
    deriveEndpoint file funcName =
      "/" ++ stripExtSeg (lastSeg (splitSlash file)) ++
        (if hasIdName funcName then "/:id" else "") ∧
    (deriveHTTPMethod funcName =
      (let lower : String := ⟨funcName.data.map Char.toLower⟩
        if containsSub lower "get" || containsSub lower "fetch" ||
            containsSub lower "find" then "GET"
        else if containsSub lower "post" || containsSub lower "create" ||
            containsSub lower "add" then "POST"
        else if containsSub lower "put" || containsSub lower "update" then "PUT"
        else if containsSub lower "patch" then "PATCH"
        else if containsSub lower "delete" || containsSub lower "remove" then "DELETE"
        else "GET")) ∧
    deriveEndpoint "api/users.js" "getUserById" = "/users/:id" ∧
    deriveHTTPMethod "getUserById" = "GET" := by
  refine ⟨?_, rfl, by decide, rfl⟩
  unfold deriveEndpoint
  rw [lastSeg_stripApiDirs]
  by_cases hid : hasIdName funcName
  · simp [hid]
  · simp [hid]

lemma generateUITests_visual_count (file : String) (functions : List (String × String))
    (lc : LineSets) :
    ((generateUITests file functions lc).filter (fun t => t.type == "visual")).length =
      (if lc.modified.length > 10 ∨ lc.added.length > 10 then 1 else 0) := by
  unfold generateUITests
  rw [List.filter_append]
  have h1 : (functions.filterMap fun fc =>
      if fc.2 == "deleted" then none
      else some (⟨"UI Test: " ++ fc.1 ++ " in " ++ file, file, "ui", some fc.1, some fc.2,
        none⟩ : GenTest)).filter (fun t => t.type == "visual") = [] := by
    rw [List.filter_eq_nil_iff]
    intro t ht
    obtain ⟨fc, hfc, hsome⟩ := List.mem_filterMap.mp ht
    cases hdel : (fc.2 == "deleted") with
    | true => simp [hdel] at hsome
    | false =>
      simp only [hdel, Bool.false_eq_true, ↓reduceIte, Option.some.injEq] at hsome
      rw [← hsome]
      simp
  rw [h1]
  by_cases hcond : lc.modified.length > 10 ∨ lc.added.length > 10
  · simp [hcond]
  · simp [hcond]

lemma generateUITests_visual_area (file : String) (functions : List (String × String))
    (lc : LineSets) :
    ∀ t ∈ generateUITests file functions lc, t.type = "visual" →
      t.targetArea = some (calculateUIImpactArea lc) := by
  intro t ht htype
  unfold generateUITests at ht
  rcases List.mem_append.mp ht with ht | ht
  · obtain ⟨fc, hfc, hsome⟩ := List.mem_filterMap.mp ht
    cases hdel : (fc.2 == "deleted") with
    | true => simp [hdel] at hsome
    | false =>
      simp only [hdel, Bool.false_eq_true, ↓reduceIte, Option.some.injEq] at hsome
      rw [← hsome] at htype
      have hui : ("ui" : String) = "visual" := htype
      exact absurd hui (by decide)
  · by_cases hcond : lc.modified.length > 10 ∨ lc.added.length > 10
    · rw [if_pos hcond] at ht
      have : t = ⟨"Visual Test: " ++ file, file, "visual", none, none,
          some (calculateUIImpactArea lc)⟩ := by simpa using ht
      rw [this]
    · rw [if_neg hcond] at ht
      cases ht

lemma calculateUIImpactArea_scope (lc : LineSets) (a b : Int)
    (hmin : (lc.modified ++ lc.added).min? = some a)
    (hmax : (lc.modified ++ lc.added).max? = some b) :
    (calculateUIImpactArea lc).scope = if b - a > 50 then "component" else "partial" := by
  simp only [calculateUIImpactArea, hmin, hmax]

/-- C9 (amended): the generator emits exactly one additional `visual`
target precisely when the file's modified line count exceeds 10 or its
added line count exceeds 10 (the two counts are tested separately, not
summed), that target carries the impact area computed from the modified and
added lines, and the area's scope is `component` when the span from the
smallest to the largest modified-or-added line exceeds 50 lines, else
`partial`. -/
theorem generateUITests_visual_spec (file : String) (functions : List (String × String))
    (lc : LineSets) :
    ((generateUITests file functions lc).filter (fun t => t.type == "visual")).length =
      (if lc.modified.length > 10 ∨ lc.added.length > 10 then 1 else 0) ∧
    (∀ t ∈ generateUITests file functions lc, t.type = "visual" →
      t.targetArea = some (calculateUIImpactArea lc)) ∧
    (∀ a b : Int, (lc.modified ++ lc.added).min? = some a →
      (lc.modified ++ lc.added).max? = some b →
      (calculateUIImpactArea lc).scope =
        if b - a > 50 then "component" else "partial") :=
  ⟨generateUITests_visual_count file functions lc,
    generateUITests_visual_area file functions lc,
    fun a b hmin hmax => calculateUIImpactArea_scope lc a b hmin hmax⟩

/-- C9 counterexample: a file with six modified and six added lines has a
modified-or-added line count of twelve, exceeding ten, yet the generator
emits no `visual` target — the source tests each count separately against
ten, not their sum. -/
theorem generateUITests_sum_counterexample :
    linesSplit66.modified.length + linesSplit66.added.length = 12 ∧
    10 < linesSplit66.modified.length + linesSplit66.added.length ∧
    (generateUITests "src/components/Widget.jsx" [] linesSplit66).filter
      (fun t => t.type == "visual") = [] :=
  ⟨rfl, by decide, rfl⟩

/-- Witness for C9's amended theorem on eleven modified lines spanning
60-70: the span is ten, so the scope is the `partial` branch. -/
theorem generateUITests_visual_spec_witness :
    (linesMod11.modified ++ linesMod11.added).min? = some 60 ∧
    (linesMod11.modified ++ linesMod11.added).max? = some 70 ∧
    (calculateUIImpactArea linesMod11).scope =
      (if (70 : Int) - 60 > 50 then "component" else "partial") :=
  ⟨rfl, rfl,
    (generateUITests_visual_spec "Widget.jsx" [] linesMod11).2.2 60 70 rfl rfl⟩

end Spec2Proof
